import Mathlib

/-!
Verification development for the zedit text editor core
(src/syntax.rs and src/buffer.rs): the per-line syntax tokenizer with
cross-line highlight state, and the character-indexed line/buffer model.

Machine integers do not occur in the modelled code paths; indices are
`usize` values that the source always keeps in bounds of small vectors,
so they are modelled as `Nat`.  Rust `String`/`Vec<char>` become Lean
`String`/`List Char`.  The two Unicode character classes used by the
scanner (`char::is_alphabetic`, `char::is_alphanumeric`) are full Unicode
tables in Rust; they enter the model as an explicit parameter
(`CharClasses`), and concrete evaluations instantiate it with the ASCII
classes, which agree with the Unicode ones on every ASCII input used.
-/

namespace Zedit

/-- Token classification tags, from `TokenType` in src/syntax.rs. -/
inductive TokenType where
  | Normal
  | Keyword
  | «Type»
  | String
  | Char
  | Number
  | Comment
  | Operator
  | Punctuation
  | Function
  | Macro
  | Attribute
  | Constant
  deriving DecidableEq

/-- A syntax token, from `Token` in src/syntax.rs. -/
structure Token where
  text : String
  token_type : TokenType
  deriving DecidableEq

/-- Language definition, from `Language` in src/syntax.rs. -/
structure Language where
  name : String
  extensions : List String
  keywords : List String
  types : List String
  constants : List String
  single_line_comment : Option String
  multi_line_comment : Option (String × String)
  string_delimiters : List Char
  char_delimiter : Option Char
  deriving DecidableEq

/-- The `RUST` language definition from src/syntax.rs. -/
def RUST : Language :=
  { name := "Rust"
    extensions := ["rs"]
    keywords := ["as", "async", "await", "break", "const", "continue", "crate", "dyn", "else",
      "enum", "extern", "false", "fn", "for", "if", "impl", "in", "let", "loop", "match",
      "mod", "move", "mut", "pub", "ref", "return", "self", "Self", "static", "struct",
      "super", "trait", "true", "type", "unsafe", "use", "where", "while", "yield"]
    types := ["bool", "char", "f32", "f64", "i8", "i16", "i32", "i64", "i128", "isize", "str",
      "u8", "u16", "u32", "u64", "u128", "usize", "String", "Vec", "Option", "Result", "Box",
      "Rc", "Arc", "Cell", "RefCell", "HashMap", "HashSet", "BTreeMap", "BTreeSet"]
    constants := ["None", "Some", "Ok", "Err", "true", "false"]
    single_line_comment := some "//"
    multi_line_comment := some ("/*", "*/")
    string_delimiters := ['"']
    char_delimiter := some '\'' }

/-- The `PYTHON` language definition from src/syntax.rs. -/
def PYTHON : Language :=
  { name := "Python"
    extensions := ["py", "pyw", "pyi"]
    keywords := ["and", "as", "assert", "async", "await", "break", "class", "continue", "def",
      "del", "elif", "else", "except", "finally", "for", "from", "global", "if", "import",
      "in", "is", "lambda", "nonlocal", "not", "or", "pass", "raise", "return", "try",
      "while", "with", "yield"]
    types := ["int", "float", "str", "bool", "list", "dict", "set", "tuple", "bytes",
      "bytearray", "complex", "frozenset", "object", "type"]
    constants := ["True", "False", "None"]
    single_line_comment := some "#"
    multi_line_comment := none
    string_delimiters := ['"', '\'']
    char_delimiter := none }

/-- The `JAVASCRIPT` language definition from src/syntax.rs. -/
def JAVASCRIPT : Language :=
  { name := "JavaScript"
    extensions := ["js", "jsx", "mjs", "cjs"]
    keywords := ["async", "await", "break", "case", "catch", "class", "const", "continue",
      "debugger", "default", "delete", "do", "else", "export", "extends", "finally", "for",
      "function", "if", "import", "in", "instanceof", "let", "new", "of", "return", "static",
      "super", "switch", "this", "throw", "try", "typeof", "var", "void", "while", "with",
      "yield"]
    types := ["Array", "Boolean", "Date", "Error", "Function", "Map", "Number", "Object",
      "Promise", "RegExp", "Set", "String", "Symbol", "WeakMap", "WeakSet"]
    constants := ["true", "false", "null", "undefined", "NaN", "Infinity"]
    single_line_comment := some "//"
    multi_line_comment := some ("/*", "*/")
    string_delimiters := ['"', '\'', '`']
    char_delimiter := none }

/-- The `TYPESCRIPT` language definition from src/syntax.rs. -/
def TYPESCRIPT : Language :=
  { name := "TypeScript"
    extensions := ["ts", "tsx"]
    keywords := ["abstract", "as", "async", "await", "break", "case", "catch", "class",
      "const", "continue", "debugger", "declare", "default", "delete", "do", "else", "enum",
      "export", "extends", "finally", "for", "from", "function", "if", "implements",
      "import", "in", "instanceof", "interface", "let", "module", "namespace", "new", "of",
      "package", "private", "protected", "public", "readonly", "return", "static", "super",
      "switch", "this", "throw", "try", "type", "typeof", "var", "void", "while", "with",
      "yield"]
    types := ["any", "boolean", "never", "number", "object", "string", "symbol", "unknown",
      "void", "Array", "Boolean", "Date", "Error", "Function", "Map", "Number", "Object",
      "Promise", "RegExp", "Set", "String", "Symbol", "WeakMap", "WeakSet"]
    constants := ["true", "false", "null", "undefined", "NaN", "Infinity"]
    single_line_comment := some "//"
    multi_line_comment := some ("/*", "*/")
    string_delimiters := ['"', '\'', '`']
    char_delimiter := none }

/-- The `C` language definition from src/syntax.rs. -/
def C : Language :=
  { name := "C"
    extensions := ["c", "h"]
    keywords := ["auto", "break", "case", "const", "continue", "default", "do", "else",
      "enum", "extern", "for", "goto", "if", "inline", "register", "restrict", "return",
      "sizeof", "static", "struct", "switch", "typedef", "union", "volatile", "while",
      "_Alignas", "_Alignof", "_Atomic", "_Bool", "_Complex", "_Generic", "_Imaginary",
      "_Noreturn", "_Static_assert", "_Thread_local"]
    types := ["char", "double", "float", "int", "long", "short", "signed", "unsigned",
      "void", "size_t", "ssize_t", "ptrdiff_t", "int8_t", "int16_t", "int32_t", "int64_t",
      "uint8_t", "uint16_t", "uint32_t", "uint64_t"]
    constants := ["NULL", "true", "false", "EOF"]
    single_line_comment := some "//"
    multi_line_comment := some ("/*", "*/")
    string_delimiters := ['"']
    char_delimiter := some '\'' }

/-- The `CPP` language definition from src/syntax.rs. -/
def CPP : Language :=
  { name := "C++"
    extensions := ["cpp", "cc", "cxx", "hpp", "hh", "hxx", "h++"]
    keywords := ["alignas", "alignof", "and", "and_eq", "asm", "auto", "bitand", "bitor",
      "break", "case", "catch", "class", "compl", "concept", "const", "consteval",
      "constexpr", "constinit", "const_cast", "continue", "co_await", "co_return",
      "co_yield", "decltype", "default", "delete", "do", "dynamic_cast", "else", "enum",
      "explicit", "export", "extern", "for", "friend", "goto", "if", "inline", "mutable",
      "namespace", "new", "noexcept", "not", "not_eq", "nullptr", "operator", "or", "or_eq",
      "private", "protected", "public", "register", "reinterpret_cast", "requires",
      "return", "sizeof", "static", "static_assert", "static_cast", "struct", "switch",
      "template", "this", "thread_local", "throw", "try", "typedef", "typeid", "typename",
      "union", "using", "virtual", "volatile", "while", "xor", "xor_eq"]
    types := ["bool", "char", "char8_t", "char16_t", "char32_t", "double", "float", "int",
      "long", "short", "signed", "unsigned", "void", "wchar_t", "size_t", "string",
      "vector", "map", "set", "array", "unique_ptr", "shared_ptr", "weak_ptr"]
    constants := ["NULL", "nullptr", "true", "false"]
    single_line_comment := some "//"
    multi_line_comment := some ("/*", "*/")
    string_delimiters := ['"']
    char_delimiter := some '\'' }

/-- The `GO` language definition from src/syntax.rs. -/
def GO : Language :=
  { name := "Go"
    extensions := ["go"]
    keywords := ["break", "case", "chan", "const", "continue", "default", "defer", "else",
      "fallthrough", "for", "func", "go", "goto", "if", "import", "interface", "map",
      "package", "range", "return", "select", "struct", "switch", "type", "var"]
    types := ["bool", "byte", "complex64", "complex128", "error", "float32", "float64",
      "int", "int8", "int16", "int32", "int64", "rune", "string", "uint", "uint8",
      "uint16", "uint32", "uint64", "uintptr"]
    constants := ["true", "false", "nil", "iota"]
    single_line_comment := some "//"
    multi_line_comment := some ("/*", "*/")
    string_delimiters := ['"', '`']
    char_delimiter := some '\'' }

/-- The `JAVA` language definition from src/syntax.rs. -/
def JAVA : Language :=
  { name := "Java"
    extensions := ["java"]
    keywords := ["abstract", "assert", "break", "case", "catch", "class", "const",
      "continue", "default", "do", "else", "enum", "extends", "final", "finally", "for",
      "goto", "if", "implements", "import", "instanceof", "interface", "native", "new",
      "package", "private", "protected", "public", "return", "static", "strictfp", "super",
      "switch", "synchronized", "this", "throw", "throws", "transient", "try", "volatile",
      "while"]
    types := ["boolean", "byte", "char", "double", "float", "int", "long", "short", "void",
      "String", "Integer", "Long", "Double", "Float", "Boolean", "Character", "Byte",
      "Short", "Object", "Class", "List", "Map", "Set", "ArrayList", "HashMap", "HashSet"]
    constants := ["true", "false", "null"]
    single_line_comment := some "//"
    multi_line_comment := some ("/*", "*/")
    string_delimiters := ['"']
    char_delimiter := some '\'' }

/-- The `HTML` language definition from src/syntax.rs. -/
def HTML : Language :=
  { name := "HTML"
    extensions := ["html", "htm", "xhtml"]
    keywords := []
    types := []
    constants := []
    single_line_comment := none
    multi_line_comment := some ("<!--", "-->")
    string_delimiters := ['"', '\'']
    char_delimiter := none }

/-- The `CSS` language definition from src/syntax.rs. -/
def CSS : Language :=
  { name := "CSS"
    extensions := ["css", "scss", "sass", "less"]
    keywords := ["import", "media", "charset", "font-face", "keyframes", "supports",
      "page", "namespace"]
    types := []
    constants := ["inherit", "initial", "unset", "none", "auto", "transparent",
      "currentColor"]
    single_line_comment := some "//"
    multi_line_comment := some ("/*", "*/")
    string_delimiters := ['"', '\'']
    char_delimiter := none }

/-- The `JSON` language definition from src/syntax.rs. -/
def JSON : Language :=
  { name := "JSON"
    extensions := ["json", "jsonc"]
    keywords := []
    types := []
    constants := ["true", "false", "null"]
    single_line_comment := none
    multi_line_comment := none
    string_delimiters := ['"']
    char_delimiter := none }

/-- The `YAML` language definition from src/syntax.rs. -/
def YAML : Language :=
  { name := "YAML"
    extensions := ["yaml", "yml"]
    keywords := []
    types := []
    constants := ["true", "false", "null", "yes", "no", "on", "off"]
    single_line_comment := some "#"
    multi_line_comment := none
    string_delimiters := ['"', '\'']
    char_delimiter := none }

/-- The `TOML` language definition from src/syntax.rs. -/
def TOML : Language :=
  { name := "TOML"
    extensions := ["toml"]
    keywords := []
    types := []
    constants := ["true", "false"]
    single_line_comment := some "#"
    multi_line_comment := none
    string_delimiters := ['"', '\'']
    char_delimiter := none }

/-- The `MARKDOWN` language definition from src/syntax.rs. -/
def MARKDOWN : Language :=
  { name := "Markdown"
    extensions := ["md", "markdown", "mdown", "mkdn"]
    keywords := []
    types := []
    constants := []
    single_line_comment := none
    multi_line_comment := none
    string_delimiters := []
    char_delimiter := none }

/-- The `SHELL` language definition from src/syntax.rs. -/
def SHELL : Language :=
  { name := "Shell"
    extensions := ["sh", "bash", "zsh", "fish"]
    keywords := ["if", "then", "else", "elif", "fi", "case", "esac", "for", "while",
      "until", "do", "done", "in", "function", "select", "time", "coproc", "return",
      "exit", "break", "continue", "local", "export", "readonly", "declare", "typeset",
      "unset", "shift", "source", "alias", "eval", "exec", "trap"]
    types := []
    constants := ["true", "false"]
    single_line_comment := some "#"
    multi_line_comment := none
    string_delimiters := ['"', '\'']
    char_delimiter := none }

/-- The `SQL` language definition from src/syntax.rs. -/
def SQL : Language :=
  { name := "SQL"
    extensions := ["sql"]
    keywords := ["SELECT", "FROM", "WHERE", "INSERT", "UPDATE", "DELETE", "CREATE", "DROP",
      "ALTER", "TABLE", "INDEX", "VIEW", "DATABASE", "SCHEMA", "INTO", "VALUES", "SET",
      "AND", "OR", "NOT", "NULL", "IS", "IN", "LIKE", "BETWEEN", "JOIN", "INNER", "LEFT",
      "RIGHT", "OUTER", "ON", "AS", "ORDER", "BY", "GROUP", "HAVING", "LIMIT", "OFFSET",
      "UNION", "ALL", "DISTINCT", "PRIMARY", "KEY", "FOREIGN", "REFERENCES", "CONSTRAINT",
      "DEFAULT", "CHECK", "UNIQUE", "CASCADE", "RESTRICT", "TRIGGER", "PROCEDURE",
      "FUNCTION", "BEGIN", "END", "COMMIT", "ROLLBACK", "TRANSACTION", "GRANT", "REVOKE",
      "IF", "ELSE", "CASE", "WHEN", "THEN", "EXISTS", "ANY", "SOME", "select", "from",
      "where", "insert", "update", "delete", "create", "drop", "alter", "table", "index",
      "view", "database", "schema", "into", "values", "set", "and", "or", "not", "null",
      "is", "in", "like", "between", "join", "inner", "left", "right", "outer", "on",
      "as", "order", "by", "group", "having", "limit", "offset", "union", "all",
      "distinct", "primary", "key", "foreign", "references", "constraint", "default",
      "check", "unique", "cascade", "restrict", "trigger", "procedure", "function",
      "begin", "end", "commit", "rollback", "transaction", "grant", "revoke", "if",
      "else", "case", "when", "then", "exists", "any", "some"]
    types := ["INT", "INTEGER", "SMALLINT", "BIGINT", "DECIMAL", "NUMERIC", "FLOAT",
      "REAL", "DOUBLE", "CHAR", "VARCHAR", "TEXT", "BLOB", "DATE", "TIME", "DATETIME",
      "TIMESTAMP", "BOOLEAN", "BOOL", "int", "integer", "smallint", "bigint", "decimal",
      "numeric", "float", "real", "double", "char", "varchar", "text", "blob", "date",
      "time", "datetime", "timestamp", "boolean", "bool"]
    constants := ["TRUE", "FALSE", "NULL", "true", "false", "null"]
    single_line_comment := some "--"
    multi_line_comment := some ("/*", "*/")
    string_delimiters := ['\'']
    char_delimiter := none }

/-- All supported languages, from `LANGUAGES` in src/syntax.rs. -/
def LANGUAGES : List Language :=
  [RUST, PYTHON, JAVASCRIPT, TYPESCRIPT, C, CPP, GO, JAVA, HTML, CSS, JSON, YAML,
   TOML, MARKDOWN, SHELL, SQL]

/-- `detect_language` from src/syntax.rs: first language whose extension
set contains the given extension. -/
def detect_language (extension : Option String) : Option Language :=
  extension.bind fun ext => LANGUAGES.find? fun lang => lang.extensions.contains ext

/-- Highlighter state for multi-line constructs, from `HighlightState`
in src/syntax.rs; `default` is both fields off. -/
structure HighlightState where
  in_multiline_comment : Bool
  in_string : Option Char
  deriving DecidableEq

/-- The `Default` value of `HighlightState` (all fields off). -/
def HighlightState.init : HighlightState := ⟨false, none⟩

/-- The two Unicode character classes the scanner consults
(`char::is_alphabetic` and `char::is_alphanumeric` in Rust).  They are
full Unicode tables; the model takes them as a parameter and
instantiates the ASCII fragment for concrete inputs. -/
structure CharClasses where
  is_alphabetic : Char → Bool
  is_alphanumeric : Char → Bool

/-- The ASCII fragment of the scanner's character classes; it agrees
with Rust's Unicode `is_alphabetic`/`is_alphanumeric` on all ASCII
characters, which covers every concrete input evaluated below. -/
def asciiClasses : CharClasses :=
  { is_alphabetic := Char.isAlpha
    is_alphanumeric := Char.isAlphanum }

/-- `Highlighter::matches_at` from src/syntax.rs: does `pat` occur in
`chars` starting at `pos`? -/
def matches_at (chars : List Char) (pos : Nat) (pat : List Char) : Bool :=
  if chars.length < pos + pat.length then false
  else List.isPrefixOf pat (chars.drop pos)

/-- Rust slice `chars[a..b]` of a `Vec<char>` as a list. -/
def slice (chars : List Char) (a b : Nat) : List Char :=
  (chars.drop a).take (b - a)

/-- `char::is_ascii_hexdigit`. -/
def isAsciiHexDigit (c : Char) : Bool :=
  c.isDigit || decide ('a' ≤ c) && decide (c ≤ 'f') || decide ('A' ≤ c) && decide (c ≤ 'F')

/-- The operator character set of the scanner (src/syntax.rs:656). -/
def opChars : List Char := "+-*/%=<>!&|^~?:".data

/-- The punctuation character set of the scanner (src/syntax.rs:672). -/
def punctChars : List Char := "()[]\x7b\x7d.,;@".data

/-- The stop set of the fallback run (src/syntax.rs:688). -/
def stopChars : List Char := "+-*/%=<>!&|^~?:()[]\x7b\x7d.,;@#".data

/-- The string-scanning loop of src/syntax.rs (lines 437-447 and
505-514): walk the suffix `s` of the line (which starts at index `i` of
the full line), skipping an escaping backslash together with the
following character; stop one past an unescaped delimiter (second
component `true`) or at end of line (second component `false`). -/
def strScanAux (delim : Char) : List Char → Nat → Nat × Bool
  | [], i => (i, false)
  | [c], i => if c = delim then (i + 1, true) else (i + 1, false)
  | c :: c2 :: rest, i =>
    if c = '\\' then strScanAux delim rest (i + 2)
    else if c = delim then (i + 1, true)
    else strScanAux delim (c2 :: rest) (i + 1)

/-- String scan starting at index `i` of `chars`. -/
def strScan (chars : List Char) (delim : Char) (i : Nat) : Nat × Bool :=
  strScanAux delim (chars.drop i) i

/-- The same-line search for a multi-line comment end marker
(src/syntax.rs:480-487): advance until the end marker matches, then step
over it (second component `true`), or run to end of line. -/
def findEndAux (endPat : List Char) : List Char → Nat → Nat × Bool
  | [], i => (i, false)
  | c :: rest, i =>
    if List.isPrefixOf endPat (c :: rest) then (i + endPat.length, true)
    else findEndAux endPat rest (i + 1)

/-- End-marker search starting at index `i` of `chars`. -/
def findEnd (chars : List Char) (endPat : List Char) (i : Nat) : Nat × Bool :=
  findEndAux endPat (chars.drop i) i

/-- The number-body loop of src/syntax.rs (lines 572-593), including the
exponent arm with its optional sign.  Note the arm order of the source:
`is_ascii_hexdigit` is tested before `e`/`E`, so the exponent arm can
never fire (`e` and `E` are hex digits). -/
def numScanAux : List Char → Nat → Bool → Nat
  | [], i, _ => i
  | c :: rest, i, has_dot =>
    if c.isDigit then numScanAux rest (i + 1) has_dot
    else if c = '.' ∧ has_dot = false then numScanAux rest (i + 1) true
    else if c = 'x' ∨ c = 'X' ∨ c = 'b' ∨ c = 'o' then numScanAux rest (i + 1) has_dot
    else if isAsciiHexDigit c then numScanAux rest (i + 1) has_dot
    else if c = '_' then numScanAux rest (i + 1) has_dot
    else if c = 'e' ∨ c = 'E' then
      match rest with
      | c2 :: rest2 =>
        if c2 = '+' ∨ c2 = '-' then numScanAux rest2 (i + 2) has_dot
        else numScanAux (c2 :: rest2) (i + 1) has_dot
      | [] => numScanAux [] (i + 1) has_dot
    else i

/-- Number-body scan starting at index `i` of `chars`. -/
def numScan (chars : List Char) (i : Nat) (has_dot : Bool) : Nat :=
  numScanAux (chars.drop i) i has_dot

/-- The type-suffix loop after a number (src/syntax.rs:596-598):
a maximal run of `is_ascii_alphabetic` or underscore characters. -/
def suffixScanAux : List Char → Nat → Nat
  | [], i => i
  | c :: rest, i =>
    if c.isAlpha ∨ c = '_' then suffixScanAux rest (i + 1) else i

/-- Type-suffix scan starting at index `i` of `chars`. -/
def suffixScan (chars : List Char) (i : Nat) : Nat :=
  suffixScanAux (chars.drop i) i

/-- The identifier loop (src/syntax.rs:611-613): a maximal run of
alphanumeric or underscore characters. -/
def identScanAux (cc : CharClasses) : List Char → Nat → Nat
  | [], i => i
  | c :: rest, i =>
    if cc.is_alphanumeric c = true ∨ c = '_' then identScanAux cc rest (i + 1) else i

/-- Identifier scan starting at index `i` of `chars`. -/
def identScan (cc : CharClasses) (chars : List Char) (i : Nat) : Nat :=
  identScanAux cc (chars.drop i) i

/-- The attribute-body loop (src/syntax.rs:640-642): advance to the
first `]`. -/
def bracketScanAux : List Char → Nat → Nat
  | [], i => i
  | c :: rest, i => if c = ']' then i else bracketScanAux rest (i + 1)

/-- Attribute-body scan starting at index `i` of `chars`. -/
def bracketScan (chars : List Char) (i : Nat) : Nat :=
  bracketScanAux (chars.drop i) i

/-- The multi-character-operator loop (src/syntax.rs:660-662). -/
def opScanAux : List Char → Nat → Nat
  | [], i => i
  | c :: rest, i => if opChars.contains c then opScanAux rest (i + 1) else i

/-- Operator scan starting at index `i` of `chars`. -/
def opScan (chars : List Char) (i : Nat) : Nat :=
  opScanAux (chars.drop i) i

/-- Loop condition of the fallback "whitespace and other" run
(src/syntax.rs:683-688). -/
def isOtherChar (cc : CharClasses) (lang : Language) (c : Char) : Bool :=
  !(cc.is_alphanumeric c) && !(c == '_') && !(lang.string_delimiters.contains c)
    && !(lang.char_delimiter == some c) && !(stopChars.contains c)

/-- The fallback run loop (src/syntax.rs:683-691). -/
def otherScanAux (cc : CharClasses) (lang : Language) : List Char → Nat → Nat
  | [], i => i
  | c :: rest, i =>
    if isOtherChar cc lang c = true then otherScanAux cc lang rest (i + 1) else i

/-- Fallback-run scan starting at index `i` of `chars`. -/
def otherScan (cc : CharClasses) (lang : Language) (chars : List Char) (i : Nat) : Nat :=
  otherScanAux cc lang (chars.drop i) i

/-- Single-line-comment test of src/syntax.rs:457-459. -/
def isSingleComment (lang : Language) (chars : List Char) (i : Nat) : Bool :=
  match lang.single_line_comment with
  | some comment => matches_at chars i comment.data
  | none => false

/-- Outcome of one iteration of the scanner loop of
`Highlighter::highlight_line`: either push tokens and return from the
function, or push one token, move the index to `j`, and continue. -/
inductive StepOut where
  | ret : List Token → HighlightState → StepOut
  | cont : Token → Nat → HighlightState → StepOut

/-- Branches 5-12 of the scanner loop body (string, char literal,
number, identifier, Rust attribute, operator, punctuation, fallback
run), src/syntax.rs:499-705.  Only evaluated under `i < chars.length`.
-/
def stepLex (cc : CharClasses) (lang : Language) (chars : List Char) (i : Nat)
    (st : HighlightState) : StepOut :=
  let c := chars.getD i default
  if lang.string_delimiters.contains c then
    let r := strScan chars c (i + 1)
    if r.1 ≤ chars.length ∧ chars.get? (r.1 - 1) = some c then
      .cont ⟨String.mk (slice chars i r.1), .String⟩ r.1 st
    else
      .ret [⟨String.mk (chars.drop i), .String⟩] { st with in_string := some c }
  else if lang.char_delimiter = some c then
    let j1 := i + 1
    let j2 :=
      if j1 < chars.length then
        if chars.getD j1 default = '\\' ∧ j1 + 1 < chars.length then j1 + 2 else j1 + 1
      else j1
    let j3 := if j2 < chars.length ∧ chars.getD j2 default = c then j2 + 1 else j2
    .cont ⟨String.mk (slice chars i j3), .Char⟩ j3 st
  else if c.isDigit ∨ (c = '.' ∧ i + 1 < chars.length ∧ (chars.getD (i + 1) default).isDigit) then
    let j := suffixScan chars (numScan chars (i + 1) (c == '.'))
    .cont ⟨String.mk (slice chars i j), .Number⟩ j st
  else if cc.is_alphabetic c = true ∨ c = '_' then
    let j := identScan cc chars i
    let text := String.mk (slice chars i j)
    let tt : TokenType :=
      if lang.keywords.contains text then .Keyword
      else if lang.types.contains text then .«Type»
      else if lang.constants.contains text then .Constant
      else if j < chars.length ∧ chars.getD j default = '(' then .Function
      else if j < chars.length ∧ chars.getD j default = '!' then .Macro
      else .Normal
    .cont ⟨text, tt⟩ j st
  else if c = '#' ∧ lang.name = "Rust" then
    let j1 := i + 1
    let j :=
      if j1 < chars.length ∧ chars.getD j1 default = '[' then
        let j2 := bracketScan chars j1
        if j2 < chars.length then j2 + 1 else j2
      else j1
    .cont ⟨String.mk (slice chars i j), .Attribute⟩ j st
  else if opChars.contains c then
    let j := opScan chars (i + 1)
    .cont ⟨String.mk (slice chars i j), .Operator⟩ j st
  else if punctChars.contains c then
    .cont ⟨String.mk [c], .Punctuation⟩ (i + 1) st
  else
    let j := otherScan cc lang chars i
    if i < j then .cont ⟨String.mk (slice chars i j), .Normal⟩ j st
    else .cont ⟨String.mk [c], .Normal⟩ (i + 1) st

/-- One full iteration of the scanner loop body of
`Highlighter::highlight_line` (src/syntax.rs:409-705): the multi-line
comment continuation, the open-string continuation, the single-line
comment, the multi-line comment start, then the lexical branches.
Only evaluated under `i < chars.length`. -/
def step (cc : CharClasses) (lang : Language) (chars : List Char) (i : Nat)
    (st : HighlightState) : StepOut :=
  if st.in_multiline_comment then
    match lang.multi_line_comment with
    | some (_, e) =>
      if matches_at chars i e.data then
        .cont ⟨String.mk (chars.take (i + e.data.length)), .Comment⟩ (i + e.data.length)
          { st with in_multiline_comment := false }
      else .ret [⟨String.mk (chars.drop i), .Comment⟩] st
    | none => .ret [⟨String.mk (chars.drop i), .Comment⟩] st
  else
    match st.in_string with
    | some delim =>
      let r := strScan chars delim i
      .cont ⟨String.mk (slice chars i r.1), .String⟩ r.1
        (if r.2 then { st with in_string := none } else st)
    | none =>
      if isSingleComment lang chars i then
        .ret [⟨String.mk (chars.drop i), .Comment⟩] st
      else
        match lang.multi_line_comment with
        | some (s, e) =>
          if matches_at chars i s.data then
            let r := findEnd chars e.data (i + s.data.length)
            .cont ⟨String.mk (slice chars i r.1), .Comment⟩ r.1
              { st with in_multiline_comment := !r.2 }
          else stepLex cc lang chars i st
        | none => stepLex cc lang chars i st

/-- The scanner loop of `Highlighter::highlight_line`
(src/syntax.rs:409-706), driven by fuel; `line.length + 1` fuel always
suffices because every iteration either returns or advances the index.
-/
def scan (cc : CharClasses) (lang : Language) (chars : List Char) :
    Nat → Nat → HighlightState → List Token × HighlightState
  | 0, _, st => ([], st)
  | fuel + 1, i, st =>
    if i < chars.length then
      match step cc lang chars i st with
      | .ret ts st' => (ts, st')
      | .cont t j st' =>
        let r := scan cc lang chars fuel j st'
        (t :: r.1, r.2)
    else ([], st)

/-- Syntax highlighter, from `Highlighter` in src/syntax.rs. -/
structure Highlighter where
  language : Option Language

/-- `Highlighter::highlight_line` from src/syntax.rs:397-709, as a pure
function from the line and incoming state to the token list and
outgoing state.  With no detected language the whole line is one Normal
token and the state is untouched. -/
def Highlighter.highlight_line (h : Highlighter) (cc : CharClasses) (line : String)
    (st : HighlightState) : List Token × HighlightState :=
  match h.language with
  | none => ([⟨line, .Normal⟩], st)
  | some lang => scan cc lang line.data (line.data.length + 1) 0 st

/-- Concatenation of the texts of a token list, as a character list. -/
def tokensData (ts : List Token) : List Char :=
  ts.foldr (fun t acc => t.text.data ++ acc) []

/-- Concatenation of the texts of a token list. -/
def tokensText (ts : List Token) : String :=
  String.mk (tokensData ts)

/-- Threading the highlight state through successive lines in order,
as the editor's render loop does. -/
def runLines (h : Highlighter) (cc : CharClasses) (ls : List String)
    (st : HighlightState) : HighlightState :=
  ls.foldl (fun s l => (h.highlight_line cc l s).2) st

/-- The multi-line comment markers of every language in the static
table are non-empty; the scanner's progress argument rests on this. -/
def wfLang (lang : Language) : Bool :=
  match lang.multi_line_comment with
  | none => true
  | some (s, e) => !(s == "") && !(e == "")

/-- A highlight state has at most one continuation flag active. -/
def StateInv (st : HighlightState) : Prop :=
  st.in_multiline_comment = true → st.in_string = none

/-- The final state carried by a loop-body outcome. -/
def StepOut.state : StepOut → HighlightState
  | .ret _ st => st
  | .cont _ _ st => st

/-- What the partition argument needs from one loop-body outcome: a
return pushes exactly one token holding the rest of the line; a
continue pushes the consumed slice `[i, j)` with `i < j ≤ length`, and
can leave the scanner inside a comment only when the line is exhausted.
-/
def stepOK (chars : List Char) (i : Nat) : StepOut → Prop
  | .ret ts _ => ∃ t, ts = [t] ∧ t.text = String.mk (chars.drop i)
  | .cont t j st' => i < j ∧ j ≤ chars.length ∧ t.text = String.mk (slice chars i j)
      ∧ (st'.in_multiline_comment = true → chars.length ≤ j)

/-- A single line in the buffer, from `Line` in src/buffer.rs: a vector
of Unicode codepoints. -/
structure Line where
  chars : List Char
  deriving DecidableEq

/-- `Line::new` from src/buffer.rs. -/
def Line.new : Line := ⟨[]⟩

/-- `Line::from_str` from src/buffer.rs: decode a string into its
codepoints. -/
def Line.from_str (s : String) : Line := ⟨s.data⟩

/-- `Line::len` from src/buffer.rs: the codepoint count. -/
def Line.len (l : Line) : Nat := l.chars.length

/-- `Line::to_string` from src/buffer.rs: reconstruct the text. -/
def Line.to_string (l : Line) : String := String.mk l.chars

/-- `Line::insert` from src/buffer.rs: insert at codepoint index `idx`,
silently ignoring an out-of-range index. -/
def Line.insert (l : Line) (idx : Nat) (c : Char) : Line :=
  if idx ≤ l.chars.length then ⟨l.chars.insertIdx idx c⟩ else l

/-- `Line::delete` from src/buffer.rs: remove and return the character
at `idx`, or `none` if out of range. -/
def Line.delete (l : Line) (idx : Nat) : Option Char × Line :=
  if h : idx < l.chars.length then (some (l.chars.get ⟨idx, h⟩), ⟨l.chars.eraseIdx idx⟩)
  else (none, l)

/-- `Line::split_off` from src/buffer.rs: keep the prefix before `idx`,
return the suffix as a new Line; out-of-range `idx` leaves the receiver
unchanged and returns an empty Line. -/
def Line.split_off (l : Line) (idx : Nat) : Line × Line :=
  if l.chars.length ≤ idx then (l, Line.new)
  else (⟨l.chars.take idx⟩, ⟨l.chars.drop idx⟩)

/-- `Line::append` from src/buffer.rs. -/
def Line.append (l other : Line) : Line := ⟨l.chars ++ other.chars⟩

/-- Text buffer, from `Buffer` in src/buffer.rs.  The file path is kept
as a plain string. -/
structure Buffer where
  lines : List Line
  path : Option String
  modified : Bool
  readonly : Bool
  deriving DecidableEq

/-- `Buffer::new` from src/buffer.rs: a single empty line. -/
def Buffer.new : Buffer :=
  { lines := [Line.new], path := none, modified := false, readonly := false }

/-- The pure core of `Buffer::from_file` (src/buffer.rs:80-104): the
file contents arrive already decoded and split into text lines, and the
platform read-only attribute arrives as a flag; if the file produced no
lines, one empty line is inserted. -/
def Buffer.from_file (path : String) (contents : List String) (readonly : Bool) : Buffer :=
  let lines := contents.map Line.from_str
  let lines := if lines.isEmpty then [Line.new] else lines
  { lines := lines, path := some path, modified := false, readonly := readonly }

/-- `Buffer::line_count` from src/buffer.rs. -/
def Buffer.line_count (b : Buffer) : Nat := b.lines.length

/-- `Buffer::insert_char` from src/buffer.rs: insert into `lines[row]`
if the row is valid and set the modified flag; silently no-op on an
invalid row. -/
def Buffer.insert_char (b : Buffer) (row col : Nat) (c : Char) : Buffer :=
  if row < b.lines.length then
    { b with lines := b.lines.set row ((b.lines.getD row Line.new).insert col c)
             modified := true }
  else b

/-- `Buffer::delete_char` from src/buffer.rs: delete from `lines[row]`,
setting the modified flag only if a character was actually removed. -/
def Buffer.delete_char (b : Buffer) (row col : Nat) : Option Char × Buffer :=
  if row < b.lines.length then
    let r := (b.lines.getD row Line.new).delete col
    (r.1, { b with lines := b.lines.set row r.2
                   modified := if r.1.isSome then true else b.modified })
  else (none, b)

/-- `Buffer::insert_newline` from src/buffer.rs: split `lines[row]` at
`col` and insert the suffix as a new line after it. -/
def Buffer.insert_newline (b : Buffer) (row col : Nat) : Buffer :=
  if row < b.lines.length then
    let r := (b.lines.getD row Line.new).split_off col
    { b with lines := (b.lines.set row r.1).insertIdx (row + 1) r.2
             modified := true }
  else b

/-- `Buffer::delete_line` from src/buffer.rs: for `0 < row < len`,
remove `lines[row]` and append its content onto `lines[row-1]`;
otherwise a no-op. -/
def Buffer.delete_line (b : Buffer) (row : Nat) : Buffer :=
  if 0 < row ∧ row < b.lines.length then
    let line := b.lines.getD row Line.new
    let ls := b.lines.eraseIdx row
    { b with lines := ls.set (row - 1) ((ls.getD (row - 1) Line.new).append line)
             modified := true }
  else b

/-- `Buffer::insert_empty_line` from src/buffer.rs: insert a new empty
line at `row` (appending allowed at `row = line_count`). -/
def Buffer.insert_empty_line (b : Buffer) (row : Nat) : Buffer :=
  if row ≤ b.lines.length then
    { b with lines := b.lines.insertIdx row Line.new, modified := true }
  else b

/-- One content mutation of a Buffer, covering the five mutation
operations of src/buffer.rs. -/
inductive BufOp where
  | insChar (row col : Nat) (c : Char)
  | delChar (row col : Nat)
  | insNewline (row col : Nat)
  | delLine (row : Nat)
  | insEmpty (row : Nat)

/-- Apply one mutation to a buffer. -/
def BufOp.apply (op : BufOp) (b : Buffer) : Buffer :=
  match op with
  | .insChar row col c => b.insert_char row col c
  | .delChar row col => (b.delete_char row col).2
  | .insNewline row col => b.insert_newline row col
  | .delLine row => b.delete_line row
  | .insEmpty row => b.insert_empty_line row

/-- Apply a sequence of mutations to a buffer, in order. -/
def Buffer.applyOps (b : Buffer) (ops : List BufOp) : Buffer :=
  ops.foldl (fun b op => op.apply b) b

/-! Section: Small list helpers -/

lemma set_merge_eq {α : Type} (l : List α) (row : Nat) (h1 : 0 < row)
    (h2 : row < l.length) (v : α) :
    (l.eraseIdx row).set (row - 1) v
      = l.take (row - 1) ++ [v] ++ l.drop (row + 1) := by
  rw [List.eraseIdx_eq_take_drop_succ,
    List.set_append_left _ _ (by simp [List.length_take]; omega)]
  congr 1
  rw [List.set_eq_take_cons_drop _ (by simp [List.length_take]; omega), List.take_take,
    List.drop_take]
  have h3 : row - (row - 1 + 1) = 0 := by omega
  have h4 : row - 1 ⊓ row = row - 1 := by omega
  simp [h3, h4]

lemma getD_eraseIdx_pred {α : Type} (l : List α) (row : Nat) (h1 : 0 < row)
    (h2 : row < l.length) (d : α) :
    (l.eraseIdx row).getD (row - 1) d = l.getD (row - 1) d := by
  rw [List.eraseIdx_eq_take_drop_succ,
    List.getD_append _ _ _ _ (by simp [List.length_take]; omega),
    List.getD_eq_getElem?_getD, List.getElem?_take, if_pos (by omega),
    ← List.getD_eq_getElem?_getD]

lemma set_getD_self {α : Type} (l : List α) (row : Nat) (h : row < l.length) (d : α) :
    l.set row (l.getD row d) = l := by
  rw [List.getD_eq_getElem?_getD, List.getElem?_eq_getElem h]
  simp only [Option.getD_some]
  rw [List.set_eq_take_cons_drop _ h, ← List.drop_eq_getElem_cons h, List.take_append_drop]

/-! Section: Index bounds for the scanner loops -/

lemma getD_of_lt {α : Type} (l : List α) {i : Nat} (h : i < l.length) (d : α) :
    l.getD i d = l[i] := by
  rw [List.getD_eq_getElem?_getD, List.getElem?_eq_getElem h, Option.getD_some]

lemma strScanAux_ge (delim : Char) (s : List Char) (i : Nat) :
    i ≤ (strScanAux delim s i).1 := by
  induction s, i using strScanAux.induct delim with
  | case1 i => simp [strScanAux]
  | case2 i => simp [strScanAux]
  | case3 c i h => simp [strScanAux, h]
  | case4 c2 rest i ih =>
    show i ≤ (strScanAux delim rest (i + 2)).1
    omega
  | case5 c2 rest i h =>
    have he : strScanAux delim (delim :: c2 :: rest) i = (i + 1, true) := by
      simp [strScanAux, h]
    rw [he]
    show i ≤ i + 1
    omega
  | case6 c c2 rest i h1 h2 ih =>
    simp only [strScanAux, if_neg h1, if_neg h2]
    omega

lemma strScanAux_le (delim : Char) (s : List Char) (i : Nat) :
    (strScanAux delim s i).1 ≤ i + s.length := by
  induction s, i using strScanAux.induct delim with
  | case1 i => simp [strScanAux]
  | case2 i => simp [strScanAux]
  | case3 c i h => simp [strScanAux, h]
  | case4 c2 rest i ih =>
    show (strScanAux delim rest (i + 2)).1 ≤ i + ('\\' :: c2 :: rest).length
    simp only [List.length_cons]
    omega
  | case5 c2 rest i h =>
    have he : strScanAux delim (delim :: c2 :: rest) i = (i + 1, true) := by
      simp [strScanAux, h]
    rw [he]
    show i + 1 ≤ i + (delim :: c2 :: rest).length
    simp only [List.length_cons]
    omega
  | case6 c c2 rest i h1 h2 ih =>
    simp only [strScanAux, if_neg h1, if_neg h2]
    simp only [List.length_cons] at ih ⊢
    omega

lemma strScanAux_pos (delim c : Char) (rest : List Char) (i : Nat) :
    i + 1 ≤ (strScanAux delim (c :: rest) i).1 := by
  rcases rest with _ | ⟨c2, rest2⟩
  · simp only [strScanAux]
    split <;> simp
  · simp only [strScanAux]
    split
    · have := strScanAux_ge delim rest2 (i + 2); omega
    · split
      · simp
      · have := strScanAux_ge delim (c2 :: rest2) (i + 1); omega

lemma strScan_ge (chars : List Char) (delim : Char) (i : Nat) :
    i ≤ (strScan chars delim i).1 :=
  strScanAux_ge delim (chars.drop i) i

lemma strScan_le (chars : List Char) (delim : Char) (i : Nat) (h : i ≤ chars.length) :
    (strScan chars delim i).1 ≤ chars.length := by
  have := strScanAux_le delim (chars.drop i) i
  rw [List.length_drop] at this
  unfold strScan
  omega

lemma strScan_pos (chars : List Char) (delim : Char) (i : Nat) (h : i < chars.length) :
    i + 1 ≤ (strScan chars delim i).1 := by
  unfold strScan
  rw [List.drop_eq_getElem_cons h]
  exact strScanAux_pos delim _ _ i

lemma findEndAux_ge (pat : List Char) (s : List Char) : ∀ i, i ≤ (findEndAux pat s i).1 := by
  induction s with
  | nil => intro i; simp [findEndAux]
  | cons c rest ih =>
    intro i
    simp only [findEndAux]
    split
    · simp
    · have := ih (i + 1); omega

lemma findEndAux_le (pat : List Char) (s : List Char) :
    ∀ i, (findEndAux pat s i).1 ≤ i + s.length := by
  induction s with
  | nil => intro i; simp [findEndAux]
  | cons c rest ih =>
    intro i
    simp only [findEndAux, List.length_cons]
    split
    · rename_i hp
      have hlen : pat.length ≤ (c :: rest).length :=
        (List.isPrefixOf_iff_prefix.mp hp).length_le
      simp only [List.length_cons] at hlen
      show i + pat.length ≤ i + (rest.length + 1)
      omega
    · have := ih (i + 1); omega

lemma findEndAux_false (pat : List Char) (s : List Char) :
    ∀ i, (findEndAux pat s i).2 = false → (findEndAux pat s i).1 = i + s.length := by
  induction s with
  | nil => intro i _; simp [findEndAux]
  | cons c rest ih =>
    intro i h
    by_cases hp : List.isPrefixOf pat (c :: rest) = true
    · simp only [findEndAux] at h
      rw [if_pos hp] at h
      simp at h
    · simp only [findEndAux] at h ⊢
      rw [if_neg hp] at h ⊢
      have := ih (i + 1) h
      simp only [List.length_cons]
      omega

lemma findEnd_ge (chars : List Char) (pat : List Char) (i : Nat) :
    i ≤ (findEnd chars pat i).1 :=
  findEndAux_ge pat (chars.drop i) i

lemma findEnd_le (chars : List Char) (pat : List Char) (i : Nat) (h : i ≤ chars.length) :
    (findEnd chars pat i).1 ≤ chars.length := by
  have := findEndAux_le pat (chars.drop i) i
  rw [List.length_drop] at this
  unfold findEnd
  omega

lemma findEnd_false (chars : List Char) (pat : List Char) (i : Nat) (h : i ≤ chars.length)
    (hf : (findEnd chars pat i).2 = false) : (findEnd chars pat i).1 = chars.length := by
  have := findEndAux_false pat (chars.drop i) i hf
  rw [List.length_drop] at this
  unfold findEnd
  omega

lemma numScanAux_ge (s : List Char) (i : Nat) (b : Bool) : i ≤ numScanAux s i b := by
  induction s, i, b using numScanAux.induct with
  | case1 i b => show i ≤ i; omega
  | case2 c rest i b h1 ih =>
    rw [numScanAux.eq_def]; simp only [if_pos h1]; omega
  | case3 c rest i b h1 h2 ih =>
    rw [numScanAux.eq_def]; simp only [if_neg h1, if_pos h2]; omega
  | case4 c rest i b h1 h2 h3 ih =>
    rw [numScanAux.eq_def]; simp only [if_neg h1, if_neg h2, if_pos h3]; omega
  | case5 c rest i b h1 h2 h3 h4 ih =>
    rw [numScanAux.eq_def]; simp only [if_neg h1, if_neg h2, if_neg h3, if_pos h4]; omega
  | case6 rest i b h1 h2 h3 h4 ih =>
    rw [numScanAux.eq_def]
    simp only [if_neg h1, if_neg h2, if_neg h3, if_neg h4]
    simp
    omega
  | case7 c i b h1 h2 h3 h4 h5 h6 c2 rest2 h7 ih =>
    rw [numScanAux.eq_def]
    simp only [if_neg h1, if_neg h2, if_neg h3, if_neg h4, if_neg h5, if_pos h6, if_pos h7]
    omega
  | case8 c i b h1 h2 h3 h4 h5 h6 c2 rest2 h7 ih =>
    rw [numScanAux.eq_def]
    simp only [if_neg h1, if_neg h2, if_neg h3, if_neg h4, if_neg h5, if_pos h6, if_neg h7]
    omega
  | case9 c i b h1 h2 h3 h4 h5 h6 ih =>
    rw [numScanAux.eq_def]
    simp only [if_neg h1, if_neg h2, if_neg h3, if_neg h4, if_neg h5, if_pos h6]
    omega
  | case10 c rest i b h1 h2 h3 h4 h5 h6 =>
    rw [numScanAux.eq_def]
    simp only [if_neg h1, if_neg h2, if_neg h3, if_neg h4, if_neg h5, if_neg h6]
    omega

lemma numScanAux_le (s : List Char) (i : Nat) (b : Bool) :
    numScanAux s i b ≤ i + s.length := by
  induction s, i, b using numScanAux.induct with
  | case1 i b => show i ≤ i + ([] : List Char).length; simp
  | case2 c rest i b h1 ih =>
    rw [numScanAux.eq_def]; simp only [if_pos h1]
    simp only [List.length_cons] at ih ⊢; omega
  | case3 c rest i b h1 h2 ih =>
    rw [numScanAux.eq_def]; simp only [if_neg h1, if_pos h2]
    simp only [List.length_cons] at ih ⊢; omega
  | case4 c rest i b h1 h2 h3 ih =>
    rw [numScanAux.eq_def]; simp only [if_neg h1, if_neg h2, if_pos h3]
    simp only [List.length_cons] at ih ⊢; omega
  | case5 c rest i b h1 h2 h3 h4 ih =>
    rw [numScanAux.eq_def]; simp only [if_neg h1, if_neg h2, if_neg h3, if_pos h4]
    simp only [List.length_cons] at ih ⊢; omega
  | case6 rest i b h1 h2 h3 h4 ih =>
    rw [numScanAux.eq_def]
    simp only [if_neg h1, if_neg h2, if_neg h3, if_neg h4]
    simp only [List.length_cons] at ih ⊢
    simp
    omega
  | case7 c i b h1 h2 h3 h4 h5 h6 c2 rest2 h7 ih =>
    rw [numScanAux.eq_def]
    simp only [if_neg h1, if_neg h2, if_neg h3, if_neg h4, if_neg h5, if_pos h6, if_pos h7]
    simp only [List.length_cons] at ih ⊢
    omega
  | case8 c i b h1 h2 h3 h4 h5 h6 c2 rest2 h7 ih =>
    rw [numScanAux.eq_def]
    simp only [if_neg h1, if_neg h2, if_neg h3, if_neg h4, if_neg h5, if_pos h6, if_neg h7]
    simp only [List.length_cons] at ih ⊢
    omega
  | case9 c i b h1 h2 h3 h4 h5 h6 ih =>
    rw [numScanAux.eq_def]
    simp only [if_neg h1, if_neg h2, if_neg h3, if_neg h4, if_neg h5, if_pos h6]
    have hbase : numScanAux [] (i + 1) b = i + 1 := rfl
    rw [hbase] at ih ⊢
    simp only [List.length_cons, List.length_nil] at ih ⊢
    omega
  | case10 c rest i b h1 h2 h3 h4 h5 h6 =>
    rw [numScanAux.eq_def]
    simp only [if_neg h1, if_neg h2, if_neg h3, if_neg h4, if_neg h5, if_neg h6]
    simp only [List.length_cons]
    omega

lemma numScan_ge (chars : List Char) (i : Nat) (b : Bool) : i ≤ numScan chars i b :=
  numScanAux_ge (chars.drop i) i b

lemma numScan_le (chars : List Char) (i : Nat) (b : Bool) (h : i ≤ chars.length) :
    numScan chars i b ≤ chars.length := by
  have := numScanAux_le (chars.drop i) i b
  rw [List.length_drop] at this
  unfold numScan
  omega

lemma suffixScanAux_ge (s : List Char) : ∀ i, i ≤ suffixScanAux s i := by
  induction s with
  | nil => intro i; simp [suffixScanAux]
  | cons c rest ih =>
    intro i
    simp only [suffixScanAux]
    split
    · have := ih (i + 1); omega
    · omega

lemma suffixScanAux_le (s : List Char) : ∀ i, suffixScanAux s i ≤ i + s.length := by
  induction s with
  | nil => intro i; simp [suffixScanAux]
  | cons c rest ih =>
    intro i
    simp only [suffixScanAux, List.length_cons]
    split
    · have := ih (i + 1); omega
    · omega

lemma suffixScan_ge (chars : List Char) (i : Nat) : i ≤ suffixScan chars i :=
  suffixScanAux_ge (chars.drop i) i

lemma suffixScan_le (chars : List Char) (i : Nat) (h : i ≤ chars.length) :
    suffixScan chars i ≤ chars.length := by
  have := suffixScanAux_le (chars.drop i) i
  rw [List.length_drop] at this
  unfold suffixScan
  omega

lemma identScanAux_ge (cc : CharClasses) (s : List Char) : ∀ i, i ≤ identScanAux cc s i := by
  induction s with
  | nil => intro i; simp [identScanAux]
  | cons c rest ih =>
    intro i
    simp only [identScanAux]
    split
    · have := ih (i + 1); omega
    · omega

lemma identScanAux_le (cc : CharClasses) (s : List Char) :
    ∀ i, identScanAux cc s i ≤ i + s.length := by
  induction s with
  | nil => intro i; simp [identScanAux]
  | cons c rest ih =>
    intro i
    simp only [identScanAux, List.length_cons]
    split
    · have := ih (i + 1); omega
    · omega

lemma identScan_le (cc : CharClasses) (chars : List Char) (i : Nat) (h : i ≤ chars.length) :
    identScan cc chars i ≤ chars.length := by
  have := identScanAux_le cc (chars.drop i) i
  rw [List.length_drop] at this
  unfold identScan
  omega

lemma identScan_pos (cc : CharClasses) (chars : List Char) (i : Nat) (hi : i < chars.length)
    (h : cc.is_alphanumeric (chars.getD i default) = true ∨ chars.getD i default = '_') :
    i + 1 ≤ identScan cc chars i := by
  unfold identScan
  rw [List.drop_eq_getElem_cons hi]
  rw [getD_of_lt chars hi] at h
  simp only [identScanAux, if_pos h]
  exact identScanAux_ge cc _ (i + 1)

lemma bracketScanAux_ge (s : List Char) : ∀ i, i ≤ bracketScanAux s i := by
  induction s with
  | nil => intro i; simp [bracketScanAux]
  | cons c rest ih =>
    intro i
    simp only [bracketScanAux]
    split
    · omega
    · have := ih (i + 1); omega

lemma bracketScanAux_le (s : List Char) : ∀ i, bracketScanAux s i ≤ i + s.length := by
  induction s with
  | nil => intro i; simp [bracketScanAux]
  | cons c rest ih =>
    intro i
    simp only [bracketScanAux, List.length_cons]
    split
    · omega
    · have := ih (i + 1); omega

lemma bracketScan_ge (chars : List Char) (i : Nat) : i ≤ bracketScan chars i :=
  bracketScanAux_ge (chars.drop i) i

lemma bracketScan_le (chars : List Char) (i : Nat) (h : i ≤ chars.length) :
    bracketScan chars i ≤ chars.length := by
  have := bracketScanAux_le (chars.drop i) i
  rw [List.length_drop] at this
  unfold bracketScan
  omega

lemma opScanAux_ge (s : List Char) : ∀ i, i ≤ opScanAux s i := by
  induction s with
  | nil => intro i; simp [opScanAux]
  | cons c rest ih =>
    intro i
    simp only [opScanAux]
    split
    · have := ih (i + 1); omega
    · omega

lemma opScanAux_le (s : List Char) : ∀ i, opScanAux s i ≤ i + s.length := by
  induction s with
  | nil => intro i; simp [opScanAux]
  | cons c rest ih =>
    intro i
    simp only [opScanAux, List.length_cons]
    split
    · have := ih (i + 1); omega
    · omega

lemma opScan_ge (chars : List Char) (i : Nat) : i ≤ opScan chars i :=
  opScanAux_ge (chars.drop i) i

lemma opScan_le (chars : List Char) (i : Nat) (h : i ≤ chars.length) :
    opScan chars i ≤ chars.length := by
  have := opScanAux_le (chars.drop i) i
  rw [List.length_drop] at this
  unfold opScan
  omega

lemma otherScanAux_le (cc : CharClasses) (lang : Language) (s : List Char) :
    ∀ i, otherScanAux cc lang s i ≤ i + s.length := by
  induction s with
  | nil => intro i; simp [otherScanAux]
  | cons c rest ih =>
    intro i
    simp only [otherScanAux, List.length_cons]
    split
    · have := ih (i + 1); omega
    · omega

lemma otherScan_le (cc : CharClasses) (lang : Language) (chars : List Char) (i : Nat)
    (h : i ≤ chars.length) : otherScan cc lang chars i ≤ chars.length := by
  have := otherScanAux_le cc lang (chars.drop i) i
  rw [List.length_drop] at this
  unfold otherScan
  omega

lemma matches_at_le (chars : List Char) (pos : Nat) (pat : List Char)
    (h : matches_at chars pos pat = true) : pos + pat.length ≤ chars.length := by
  unfold matches_at at h
  split at h
  · exact absurd h (by simp)
  · omega

/-! Section: Slice lemmas -/

lemma slice_append_drop (chars : List Char) (i j : Nat) (h : i ≤ j) :
    slice chars i j ++ chars.drop j = chars.drop i := by
  unfold slice
  have hd : chars.drop j = (chars.drop i).drop (j - i) := by
    rw [List.drop_drop]; congr 1; omega
  rw [hd, List.take_append_drop]

lemma slice_ne_nil (chars : List Char) (i j : Nat) (h1 : i < j) (h2 : i < chars.length) :
    slice chars i j ≠ [] := by
  have hpos : 0 < (slice chars i j).length := by
    simp only [slice, List.length_take, List.length_drop]
    omega
  exact List.length_pos.mp hpos

lemma slice_zero (chars : List Char) (j : Nat) : slice chars 0 j = chars.take j := by
  simp [slice]

lemma slice_single (chars : List Char) (i : Nat) (hi : i < chars.length) :
    slice chars i (i + 1) = [chars.getD i default] := by
  unfold slice
  have h1 : i + 1 - i = 1 := by omega
  rw [h1, List.drop_eq_getElem_cons hi, getD_of_lt chars hi]
  rfl

/-! Section: One-step specification of the scanner loop body -/

lemma length_pos_of_ne_empty (s : String) (h : s ≠ "") : 0 < s.data.length := by
  rcases s with ⟨data⟩
  cases data with
  | nil => exact absurd rfl h
  | cons c cs => simp

lemma string_mk_ne_empty (l : List Char) (h : l ≠ []) : String.mk l ≠ "" := by
  intro heq
  apply h
  rw [String.ext_iff] at heq
  simpa using heq

lemma wf_markers_pos (lang : Language) (hwf : wfLang lang = true) {s e : String}
    (heq : lang.multi_line_comment = some (s, e)) :
    0 < s.data.length ∧ 0 < e.data.length := by
  unfold wfLang at hwf
  rw [heq] at hwf
  simp only [Bool.and_eq_true, Bool.not_eq_true', beq_eq_false_iff_ne, ne_eq] at hwf
  exact ⟨length_pos_of_ne_empty s hwf.1, length_pos_of_ne_empty e hwf.2⟩

lemma stepLex_ok (cc : CharClasses) (lang : Language) (chars : List Char) (i : Nat)
    (st : HighlightState)
    (hcc : ∀ ch, cc.is_alphabetic ch = true → cc.is_alphanumeric ch = true)
    (hi : i < chars.length)
    (hst : st.in_multiline_comment = false) :
    stepOK chars i (stepLex cc lang chars i st) := by
  simp only [stepLex]
  split
  next hA =>
    split
    next hB =>
      refine ⟨?_, hB.1, rfl, by simp [hst]⟩
      have := strScan_ge chars (chars.getD i default) (i + 1)
      omega
    next hB =>
      exact ⟨_, rfl, rfl⟩
  next hA =>
  split
  next hC =>
    refine ⟨?_, ?_, rfl, by simp [hst]⟩ <;> (split_ifs <;> omega)
  next hC =>
  split
  next hD =>
    have n1 := numScan_ge chars (i + 1) (chars.getD i default == '.')
    have n2 := numScan_le chars (i + 1) (chars.getD i default == '.') (by omega)
    have s1 := suffixScan_ge chars (numScan chars (i + 1) (chars.getD i default == '.'))
    have s2 := suffixScan_le chars (numScan chars (i + 1) (chars.getD i default == '.')) n2
    exact ⟨by omega, by omega, rfl, by simp [hst]⟩
  next hD =>
  split
  next hE =>
    refine ⟨?_, identScan_le cc chars i hi.le, rfl, by simp [hst]⟩
    exact identScan_pos cc chars i hi (hE.imp (hcc _) id)
  next hE =>
  split
  next hF =>
    have b1 := bracketScan_ge chars (i + 1)
    have b2 := bracketScan_le chars (i + 1) (by omega)
    refine ⟨?_, ?_, rfl, by simp [hst]⟩ <;> (split_ifs <;> omega)
  next hF =>
  split
  next hG =>
    have o1 := opScan_ge chars (i + 1)
    have o2 := opScan_le chars (i + 1) (by omega)
    exact ⟨by omega, by omega, rfl, by simp [hst]⟩
  next hG =>
  split
  next hH =>
    refine ⟨by omega, by omega, ?_, by simp [hst]⟩
    rw [slice_single chars i hi]
  next hH =>
  split
  next hJ =>
    exact ⟨hJ, otherScan_le cc lang chars i hi.le, rfl, by simp [hst]⟩
  next hJ =>
    refine ⟨by omega, by omega, ?_, by simp [hst]⟩
    rw [slice_single chars i hi]

lemma step_ok (cc : CharClasses) (lang : Language) (chars : List Char) (i : Nat)
    (st : HighlightState)
    (hwf : wfLang lang = true)
    (hcc : ∀ ch, cc.is_alphabetic ch = true → cc.is_alphanumeric ch = true)
    (hi : i < chars.length)
    (hin : st.in_multiline_comment = true → i = 0) :
    stepOK chars i (step cc lang chars i st) := by
  simp only [step]
  split
  next hcm =>
    split
    next s e heq =>
      split
      next hm =>
        have hi0 : i = 0 := hin hcm
        have hle := matches_at_le chars i e.data hm
        have hpos := (wf_markers_pos lang hwf heq).2
        subst hi0
        refine ⟨by omega, by omega, ?_, by simp⟩
        rw [slice_zero]
      next hm =>
        exact ⟨_, rfl, rfl⟩
    next heq =>
      exact ⟨_, rfl, rfl⟩
  next hcm =>
  have hcm' : st.in_multiline_comment = false := by
    revert hcm
    cases st.in_multiline_comment <;> simp
  split
  next delim heq =>
    refine ⟨strScan_pos chars delim i hi, strScan_le chars delim i hi.le, rfl, ?_⟩
    split <;> (intro hc; rw [hcm'] at hc; cases hc)
  next heq =>
  split
  next hsc =>
    exact ⟨_, rfl, rfl⟩
  next hsc =>
  split
  next s e heq2 =>
    split
    next hm =>
      have h1 := matches_at_le chars i s.data hm
      have hspos := (wf_markers_pos lang hwf heq2).1
      have f1 := findEnd_ge chars e.data (i + s.data.length)
      have f2 := findEnd_le chars e.data (i + s.data.length) (by omega)
      refine ⟨by omega, f2, rfl, ?_⟩
      intro hc
      have hfalse : (findEnd chars e.data (i + s.data.length)).2 = false := by
        revert hc
        cases (findEnd chars e.data (i + s.data.length)).2 <;> simp
      have := findEnd_false chars e.data (i + s.data.length) (by omega) hfalse
      omega
    next hm => exact stepLex_ok cc lang chars i st hcc hi hcm'
  next heq2 => exact stepLex_ok cc lang chars i st hcc hi hcm'

/-! Section: The scanner loop: partition and state invariant -/

lemma tokensData_cons (t : Token) (ts : List Token) :
    tokensData (t :: ts) = t.text.data ++ tokensData ts := rfl

lemma scan_partition (cc : CharClasses) (lang : Language) (chars : List Char)
    (hwf : wfLang lang = true)
    (hcc : ∀ ch, cc.is_alphabetic ch = true → cc.is_alphanumeric ch = true) :
    ∀ (fuel i : Nat) (st : HighlightState),
      chars.length ≤ fuel + i →
      (st.in_multiline_comment = true → i = 0 ∨ chars.length ≤ i) →
      tokensData (scan cc lang chars fuel i st).1 = chars.drop i
      ∧ ∀ t ∈ (scan cc lang chars fuel i st).1, t.text ≠ "" := by
  intro fuel
  induction fuel with
  | zero =>
    intro i st hfi hin
    have hd : chars.drop i = [] := List.drop_eq_nil_of_le (by omega)
    simp [scan, hd, tokensData]
  | succ fuel ih =>
    intro i st hfi hin
    by_cases hlt : i < chars.length
    · have hin0 : st.in_multiline_comment = true → i = 0 := by
        intro h
        rcases hin h with h0 | h0
        · exact h0
        · omega
      have hok := step_ok cc lang chars i st hwf hcc hlt hin0
      simp only [scan, if_pos hlt]
      rcases hstep : step cc lang chars i st with ⟨ts, st'⟩ | ⟨t, j, st'⟩
      · rw [hstep] at hok
        simp only [stepOK] at hok
        obtain ⟨t, hts, htext⟩ := hok
        subst hts
        constructor
        · simp [tokensData, htext]
        · intro t' ht'
          simp only [List.mem_singleton] at ht'
          subst ht'
          rw [htext]
          exact string_mk_ne_empty _ (by
            intro hnil
            have := List.drop_eq_nil_iff.mp hnil
            omega)
      · rw [hstep] at hok
        simp only [stepOK] at hok
        obtain ⟨hij, hjle, htext, hstc⟩ := hok
        have hrec := ih j st' (by omega) (fun hc => Or.inr (hstc hc))
        constructor
        · simp only [tokensData_cons, htext]
          rw [hrec.1]
          exact slice_append_drop chars i j (by omega)
        · intro t' ht'
          rcases List.mem_cons.mp ht' with rfl | hmem
          · rw [htext]
            exact string_mk_ne_empty _ (slice_ne_nil chars i j hij hlt)
          · exact hrec.2 t' hmem
    · have hd : chars.drop i = [] := List.drop_eq_nil_of_le (by omega)
      simp [scan, hlt, hd, tokensData]

lemma stepLex_comment_eq (cc : CharClasses) (lang : Language) (chars : List Char) (i : Nat)
    (st : HighlightState) :
    ((stepLex cc lang chars i st).state).in_multiline_comment = st.in_multiline_comment := by
  simp only [stepLex]
  repeat' split
  all_goals rfl

lemma step_state_inv (cc : CharClasses) (lang : Language) (chars : List Char) (i : Nat)
    (st : HighlightState) (h : StateInv st) :
    StateInv (step cc lang chars i st).state := by
  simp only [step]
  split
  next hcm =>
    split
    next s e heq =>
      split
      next hm => intro hc; cases hc
      next hm => exact h
    next heq => exact h
  next hcm =>
  have hcm' : st.in_multiline_comment = false := by
    revert hcm
    cases st.in_multiline_comment <;> simp
  split
  next delim heq =>
    simp only [StepOut.state]
    split <;> (intro hc; simp [hcm'] at hc)
  next heq =>
  split
  next hsc => exact h
  next hsc =>
  split
  next s e heq2 =>
    split
    next hm =>
      intro hc
      simpa [StepOut.state] using heq
    next hm =>
      have := stepLex_comment_eq cc lang chars i st
      intro hc
      rw [this, hcm'] at hc
      cases hc
  next heq2 =>
    have := stepLex_comment_eq cc lang chars i st
    intro hc
    rw [this, hcm'] at hc
    cases hc

lemma scan_state_inv (cc : CharClasses) (lang : Language) (chars : List Char) :
    ∀ (fuel i : Nat) (st : HighlightState), StateInv st →
      StateInv (scan cc lang chars fuel i st).2 := by
  intro fuel
  induction fuel with
  | zero => intro i st h; simpa [scan] using h
  | succ fuel ih =>
    intro i st h
    by_cases hlt : i < chars.length
    · simp only [scan, if_pos hlt]
      have hs := step_state_inv cc lang chars i st h
      rcases hstep : step cc lang chars i st with ⟨ts, st'⟩ | ⟨t, j, st'⟩
      · rw [hstep] at hs
        simpa [StepOut.state] using hs
      · rw [hstep] at hs
        simp only [StepOut.state] at hs
        simpa using ih j st' hs
    · simpa [scan, hlt] using h

lemma highlight_line_state_inv (h : Highlighter) (cc : CharClasses) (line : String)
    (st : HighlightState) (hst : StateInv st) :
    StateInv (h.highlight_line cc line st).2 := by
  rcases h with ⟨o⟩
  cases o with
  | none => simpa [Highlighter.highlight_line] using hst
  | some lang =>
    simp only [Highlighter.highlight_line]
    exact scan_state_inv cc lang line.data (line.data.length + 1) 0 st hst

/-- The multi-line comment markers of every language in the static
table are non-empty. -/
lemma languages_wf : ∀ l ∈ LANGUAGES, wfLang l = true := by decide

/-- The ASCII character classes are monotone in the sense the scanner
needs (alphabetic implies alphanumeric), as Rust's Unicode classes are.
-/
lemma asciiClasses_mono :
    ∀ ch, asciiClasses.is_alphabetic ch = true → asciiClasses.is_alphanumeric ch = true := by
  intro ch h
  simp only [asciiClasses] at h ⊢
  simp [Char.isAlphanum, h]

/-! Section: Evaluation theorems for the divergent scanner claims -/

/-- C1 (evaluation at the failing input): on the spec's two-line Rust
scenario, after line 1 `/* start` the state is inside-comment as
claimed; but on line 2 `end */ x` the continuation branch tests for the
end marker only at the current position, so the whole line becomes one
Comment token and the state stays inside-comment, instead of a Comment
token `end */` followed by tokens for ` x` with the flag cleared. -/
theorem c1_multiline_comment_continuation :
    ((Highlighter.mk (some RUST)).highlight_line asciiClasses "/* start"
        HighlightState.init).2 = ⟨true, none⟩
    ∧ (Highlighter.mk (some RUST)).highlight_line asciiClasses "end */ x" ⟨true, none⟩
        = ([⟨"end */ x", .Comment⟩], ⟨true, none⟩) := by
  decide

/-- C2 (evaluation at the failing inputs): the completeness check of the
fresh-string branch only compares the character before the stop position
with the delimiter, so a line consisting of a lone `"` and a line whose
only closing candidate `"` is escaped are both emitted as complete
String tokens with `in_string` left unset, instead of unterminated
strings that set `state.in_string`. -/
theorem c2_string_termination_check :
    (Highlighter.mk (some RUST)).highlight_line asciiClasses "\"" HighlightState.init
      = ([⟨"\"", .String⟩], ⟨false, none⟩)
    ∧ (Highlighter.mk (some RUST)).highlight_line asciiClasses "\"a\\\"" HighlightState.init
      = ([⟨"\"a\\\"", .String⟩], ⟨false, none⟩) := by
  decide

/-- C4 (evaluation at the failing input): `e` and `E` are ASCII hex
digits, so the hex-digit arm of the number scanner consumes them before
the exponent arm can run; `1e+5` under Rust therefore tokenizes as
Number `1e`, Operator `+`, Number `5` rather than one Number token
spanning the whole literal. -/
theorem c4_number_exponent_sign :
    ((Highlighter.mk (some RUST)).highlight_line asciiClasses "1e+5"
        HighlightState.init).1
      = [⟨"1e", .Number⟩, ⟨"+", .Operator⟩, ⟨"5", .Number⟩] := by
  decide

/-- C3 (counterexample to the claim as stated): with no detected
language the empty line yields exactly one token whose text is empty,
so "no emitted token has empty text" fails. -/
theorem c3_counterexample_empty_token :
    Token.mk "" .Normal
      ∈ ((Highlighter.mk none).highlight_line asciiClasses "" HighlightState.init).1 := by
  decide

/-- C8: tokenizing `let x: String = String::new();` with the Rust
language from a fresh default state yields a Keyword token `let`,
exactly two Type tokens `String`, and a Function-classified token `new`
(classified Function because the next character is `(`). -/
theorem c8_rust_literal_scenario :
    Token.mk "let" .Keyword
        ∈ ((Highlighter.mk (some RUST)).highlight_line asciiClasses
            "let x: String = String::new();" HighlightState.init).1
    ∧ ((Highlighter.mk (some RUST)).highlight_line asciiClasses
            "let x: String = String::new();" HighlightState.init).1.filter
          (fun t => t.token_type == TokenType.«Type»)
        = [⟨"String", .«Type»⟩, ⟨"String", .«Type»⟩]
    ∧ Token.mk "new" .Function
        ∈ ((Highlighter.mk (some RUST)).highlight_line asciiClasses
            "let x: String = String::new();" HighlightState.init).1 := by
  decide

/-! Section: Line and Buffer theorems -/

/-- C7: for every string `s`, `Line::from_str(s).to_string()` returns
`s` (round-trip), and `len()` is the Unicode codepoint count of `s`;
the codepoint count differs from the byte count on multi-byte input. -/
theorem c7_line_roundtrip :
    (∀ s : String, (Line.from_str s).to_string = s ∧ (Line.from_str s).len = s.data.length)
    ∧ (Line.from_str "é🌍").len ≠ ("é🌍" : String).utf8ByteSize := by
  exact ⟨fun s => ⟨rfl, rfl⟩, by decide⟩

lemma BufOp.apply_pos (op : BufOp) (b : Buffer) (h : 1 ≤ b.lines.length) :
    1 ≤ (op.apply b).lines.length := by
  cases op with
  | insChar row col c =>
    simp only [apply, Buffer.insert_char]
    split <;> simpa
  | delChar row col =>
    simp only [apply, Buffer.delete_char]
    split <;> simpa
  | insNewline row col =>
    simp only [apply, Buffer.insert_newline]
    split
    · exact le_trans (by simpa) (List.length_le_length_insertIdx _ _ _)
    · exact h
  | delLine row =>
    simp only [apply, Buffer.delete_line]
    split
    · rename_i hr
      simp only [List.length_set, List.length_eraseIdx, if_pos hr.2]
      omega
    · exact h
  | insEmpty row =>
    simp only [apply, Buffer.insert_empty_line]
    split
    · exact le_trans h (List.length_le_length_insertIdx _ _ _)
    · exact h

/-- C5: a Buffer with zero lines is never observable: `Buffer::new`,
loading any file (including an empty one), and any sequence of the five
mutation operations all leave `line_count() ≥ 1`. -/
theorem c5_buffer_never_empty :
    1 ≤ Buffer.new.line_count
    ∧ (∀ (path : String) (contents : List String) (ro : Bool),
        1 ≤ (Buffer.from_file path contents ro).line_count)
    ∧ (∀ (b : Buffer) (ops : List BufOp),
        1 ≤ b.line_count → 1 ≤ (b.applyOps ops).line_count) := by
  refine ⟨by decide, fun path contents ro => ?_, fun b ops => ?_⟩
  · simp only [Buffer.from_file, Buffer.line_count]
    split
    · decide
    · rename_i hne
      have : contents.map Line.from_str ≠ [] := by simpa [List.isEmpty_iff] using hne
      have := List.length_pos.mpr this
      omega
  · induction ops generalizing b with
    | nil => exact fun h => h
    | cons op ops ih =>
      intro h
      exact ih (op.apply b) (BufOp.apply_pos op b h)

/-- Witness for C5 at a concrete buffer and mutation sequence. -/
theorem c5_buffer_never_empty_witness :
    1 ≤ (Buffer.new.applyOps
        [BufOp.insChar 0 0 'a', BufOp.insNewline 0 1, BufOp.delLine 1,
         BufOp.delLine 0]).line_count :=
  c5_buffer_never_empty.2.2 Buffer.new
    [BufOp.insChar 0 0 'a', BufOp.insNewline 0 1, BufOp.delLine 1, BufOp.delLine 0]
    (by decide)

/-- C6: `delete_line(0)` is a no-op (the whole Buffer is unchanged,
modified flag included), as is `delete_line(row)` for any out-of-range
row; for a valid `row > 0` it removes `lines[row]`, appends its content
onto `lines[row-1]`, reduces the line count by exactly one, and sets
the modified flag. -/
theorem c6_delete_line_spec :
    (∀ b : Buffer, b.delete_line 0 = b)
    ∧ (∀ (b : Buffer) (row : Nat), b.lines.length ≤ row → b.delete_line row = b)
    ∧ (∀ (b : Buffer) (row : Nat), 0 < row → row < b.lines.length →
        (b.delete_line row).lines
          = b.lines.take (row - 1)
            ++ [(b.lines.getD (row - 1) Line.new).append (b.lines.getD row Line.new)]
            ++ b.lines.drop (row + 1)
        ∧ (b.delete_line row).line_count = b.line_count - 1
        ∧ (b.delete_line row).modified = true) := by
  refine ⟨fun b => ?_, fun b row h => ?_, fun b row h1 h2 => ?_⟩
  · simp [Buffer.delete_line]
  · simp only [Buffer.delete_line]
    rw [if_neg]
    rintro ⟨h1, h2⟩
    omega
  · simp only [Buffer.delete_line, if_pos (And.intro h1 h2), Buffer.line_count]
    refine ⟨?_, ?_, trivial⟩
    · rw [getD_eraseIdx_pred _ _ h1 h2, set_merge_eq _ _ h1 h2]
    · simp [List.length_eraseIdx, if_pos h2]

/-- Witness for C6 at a concrete two-line buffer and `row = 1`. -/
theorem c6_delete_line_spec_witness :
    ((Buffer.mk [⟨['a']⟩, ⟨['b']⟩] none false false).delete_line 1).lines
      = ([] : List Line) ++ [Line.append ⟨['a']⟩ ⟨['b']⟩] ++ []
    ∧ ((Buffer.mk [⟨['a']⟩, ⟨['b']⟩] none false false).delete_line 1).line_count = 2 - 1
    ∧ ((Buffer.mk [⟨['a']⟩, ⟨['b']⟩] none false false).delete_line 1).modified = true := by
  have h := c6_delete_line_spec.2.2 (Buffer.mk [⟨['a']⟩, ⟨['b']⟩] none false false) 1
    (by decide) (by decide)
  exact h

/-- C9 (implicit): `Buffer::insert_char` with a valid row and a column
beyond that line's length changes no line (the underlying
`Line::insert` ignores the out-of-range index) yet still sets the
modified flag; the flag is set whenever the row is valid, independent
of the column. -/
theorem c9_insert_char_modified_flag (b : Buffer) (row col : Nat) (c : Char)
    (hrow : row < b.lines.length)
    (hcol : (b.lines.getD row Line.new).len < col) :
    (b.insert_char row col c).lines = b.lines
    ∧ ∀ col' : Nat, (b.insert_char row col' c).modified = true := by
  constructor
  · simp only [Buffer.insert_char, if_pos hrow]
    have : (b.lines.getD row Line.new).insert col c = b.lines.getD row Line.new := by
      simp only [Line.insert, Line.len] at hcol ⊢
      rw [if_neg (by omega)]
    rw [this, set_getD_self _ _ hrow]
  · intro col'
    simp [Buffer.insert_char, if_pos hrow]

/-- Witness for C9 at a concrete one-line buffer, `row = 0`,
`col = 5 > 2`. -/
theorem c9_insert_char_modified_flag_witness :
    ((Buffer.mk [⟨['a', 'b']⟩] none false false).insert_char 0 5 'z').lines
        = [⟨['a', 'b']⟩]
    ∧ ∀ col' : Nat,
        ((Buffer.mk [⟨['a', 'b']⟩] none false false).insert_char 0 col' 'z').modified
          = true :=
  c9_insert_char_modified_flag (Buffer.mk [⟨['a', 'b']⟩] none false false) 0 5 'z'
    (by decide) (by decide)

/-! Section: The partition and state-exclusivity theorems -/

/-- C3 (amended): for every input line, starting state, and language
selection (one of the supported languages, or none), the emitted tokens
concatenate back to the input line exactly; and every token has
non-empty text, except that with no detected language the empty line is
returned as a single Normal token whose text is empty. -/
theorem c3_token_partition (o : Option Language)
    (ho : ∀ l, o = some l → l ∈ LANGUAGES)
    (cc : CharClasses)
    (hcc : ∀ ch, cc.is_alphabetic ch = true → cc.is_alphanumeric ch = true)
    (line : String) (st : HighlightState) :
    tokensText ((Highlighter.mk o).highlight_line cc line st).1 = line
    ∧ ∀ t ∈ ((Highlighter.mk o).highlight_line cc line st).1,
        t.text = "" → o = none ∧ line = "" := by
  cases o with
  | none =>
    constructor
    · show tokensText [⟨line, .Normal⟩] = line
      simp only [tokensText, tokensData, List.foldr]
      rw [List.append_nil]
    · intro t ht hempty
      simp only [Highlighter.highlight_line, List.mem_singleton] at ht
      subst ht
      exact ⟨rfl, hempty⟩
  | some lang =>
    have hwf := languages_wf lang (ho lang rfl)
    have hpart := scan_partition cc lang line.data hwf hcc (line.data.length + 1) 0 st
      (by omega) (fun _ => Or.inl rfl)
    constructor
    · simp only [Highlighter.highlight_line, tokensText]
      rw [hpart.1, List.drop_zero]
    · intro t ht hempty
      exact absurd hempty (hpart.2 t ht)

/-- Witness for C3 at the Rust language, a line with an unterminated
string, and the default starting state. -/
theorem c3_token_partition_witness :
    tokensText ((Highlighter.mk (some RUST)).highlight_line asciiClasses "let x = \"a"
        HighlightState.init).1 = "let x = \"a"
    ∧ ∀ t ∈ ((Highlighter.mk (some RUST)).highlight_line asciiClasses "let x = \"a"
        HighlightState.init).1,
        t.text = "" → some RUST = none ∧ ("let x = \"a" : String) = "" :=
  c3_token_partition (some RUST)
    (fun l hl => by injection hl with h; subst h; decide)
    asciiClasses asciiClasses_mono "let x = \"a" HighlightState.init

/-- C10 (implicit): starting from the default state, threading the
highlight state through any sequence of lines with any fixed language
selection never produces a state with both continuation flags active:
`in_multiline_comment = true` and `in_string = Some(_)` never hold
simultaneously. -/
theorem c10_state_flags_exclusive (o : Option Language) (cc : CharClasses)
    (ls : List String) :
    ¬((runLines (Highlighter.mk o) cc ls HighlightState.init).in_multiline_comment = true
      ∧ ((runLines (Highlighter.mk o) cc ls HighlightState.init).in_string).isSome
          = true) := by
  have key : ∀ (ls : List String) (st : HighlightState), StateInv st →
      StateInv (runLines (Highlighter.mk o) cc ls st) := by
    intro ls
    induction ls with
    | nil => intro st h; exact h
    | cons l rest ih =>
      intro st h
      simp only [runLines, List.foldl_cons]
      exact ih _ (highlight_line_state_inv (Highlighter.mk o) cc l st h)
  rintro ⟨h1, h2⟩
  have hinv := key ls HighlightState.init (by intro hc; cases hc)
  rw [hinv h1] at h2
  cases h2

end Zedit
